import Mathlib

/-!
Verification development for the NVAE audio port (files
`src/neural_ar_operations.py` and `src/model.py`).

Modelling conventions used throughout:

* A tensor holding one sample is a list of channels, each channel a list of
  scalars over the time axis.  The batch axis is dropped: every operation in
  the verified code acts independently on each batch element.  Scalars are
  exact integers; no verified property depends on floating-point rounding.
* The real-valued primitives of torch (`exp`, `log`, `softplus`) are bundled
  in a `RealOps` parameter; theorems quantify over it, so they hold for any
  realization of these primitives, including the floating-point one.
* `normalize_weight_jit` is imported from `neural_operations.py`, which is not
  one of the two source files here.  Per spec section 4.1 it rescales each
  output channel of a kernel by a positive scalar computed with `exp`/`sqrt`.
  Embedded convolutions therefore take the realized (normalized) kernel as an
  argument, and the theorems quantify over it, hence hold for whatever kernel
  the normalization produces.
* Fallible torch/numpy behaviour (shape errors, Python `NameError` /
  `AttributeError` / `IndexError`, failed `assert`s) is modelled with
  `Option`/`Except` values.
* Construction of `ARConv1d` always raises (see the `__init__` model below),
  so in the running program none of the forward passes is reachable; the
  forward-pass theorems describe the data flow of the forward methods with
  their parameters supplied as values.
-/

namespace NVAE

/-- Scalar type of the embedding: exact arithmetic standing in for the float
values flowing through the network. -/
abbrev Scalar := ℤ

/-- One sample: channels × time. -/
abbrev Tensor := List (List Scalar)

/-- Abstraction of the real-valued torch primitives used by the source
(`torch.exp`, `torch.log`, `F.softplus`).  Theorems quantify over `ops`. -/
structure RealOps where
  exp : Scalar → Scalar
  log : Scalar → Scalar
  softplus : Scalar → Scalar

/-- Trivial instantiation of `RealOps`, used only to evaluate witnesses on
concrete inputs whose control flow never reaches the abstracted primitives. -/
def ops0 : RealOps where
  exp := fun _ => 0
  log := fun _ => 0
  softplus := fun _ => 0

/-- `F.elu` / `nn.ELU` with the default `alpha = 1`: identity on nonnegative
inputs, `exp x - 1` on negative ones (used at `src/neural_ar_operations.py`
lines 147, 164 and 167). -/
def elu (ops : RealOps) (x : Scalar) : Scalar := if 0 ≤ x then x else ops.exp x - 1

/-- `elu` applied elementwise to a tensor. -/
def eluT (ops : RealOps) (t : Tensor) : Tensor := t.map (fun row => row.map (elu ops))

/-- `torch.zeros_like`. -/
def zerosLike (t : Tensor) : Tensor := t.map (fun row => row.map (fun _ => 0))

/-- Elementwise tensor subtraction (torch `-` on equal-shape tensors). -/
def tensorSub (a b : Tensor) : Tensor := List.zipWith (List.zipWith (fun x y => x - y)) a b

/-- Elementwise tensor addition (torch `+` on equal-shape tensors). -/
def tensorAdd (a b : Tensor) : Tensor := List.zipWith (List.zipWith (fun x y => x + y)) a b

/-! ### 1-d convolution (`F.conv1d`, stride 1)

Every `ARConv1d` constructed in the two source files uses stride 1, so the
embedding fixes the stride. -/

/-- Zero padding appended by `F.conv1d` on BOTH ends of a channel (the
`padding` argument of `torch.nn.functional.conv1d` pads symmetrically). -/
def padLR (p : ℕ) (row : List Scalar) : List Scalar :=
  List.replicate p 0 ++ row ++ List.replicate p 0

/-- One output entry of a 1-d correlation: kernel tap `t` reads the padded
input at `i + t * dil` (stride 1). -/
def convTap (xpad : List Scalar) (w : List Scalar) (dil i : ℕ) : Scalar :=
  ((List.range w.length).map (fun t => w.getD t 0 * xpad.getD (i + t * dil) 0)).sum

/-- Static configuration of a 1-d convolution. -/
structure ConvCfg where
  cIn : ℕ
  cOut : ℕ
  k : ℕ
  padding : ℕ
  dilation : ℕ
  groups : ℕ

/-- `F.conv1d` with stride 1: output channel `o` belongs to group
`o / (cOut/groups)` and reads the `cIn/groups` input channels of that group;
output length is `L + 2*padding - dilation*(k-1)` (torch raises when that
quantity is negative; ℕ subtraction truncates to an empty output instead,
which no verified use hits: the causal-SAME instances have length `L + p`). -/
def conv1d (cfg : ConvCfg) (weight : List (List (List Scalar))) (bias : List Scalar)
    (x : Tensor) : Tensor :=
  let cinG := cfg.cIn / cfg.groups
  let coutG := cfg.cOut / cfg.groups
  let L := (x.headD []).length
  let lout := L + 2 * cfg.padding - cfg.dilation * (cfg.k - 1)
  (List.range cfg.cOut).map (fun o =>
    (List.range lout).map (fun i =>
      bias.getD o 0 +
        ((List.range cinG).map (fun c =>
          convTap (padLR cfg.padding (x.getD (o / coutG * cinG + c) []))
            ((weight.getD o []).getD c []) cfg.dilation i)).sum))

/-- Padding mode string of `ARConv1d` (only `SAME` is ever passed). -/
inductive PadMode
  | SAME
  | VALID
deriving DecidableEq

/-- Padding computed in `ARConv1d.__init__`
(`src/neural_ar_operations.py` lines 94-99). -/
def configuredPadding (causal : Bool) (mode : PadMode) (dilation kernel_size : ℕ) : ℕ :=
  if causal ∧ mode = PadMode.SAME then dilation * (kernel_size - 1)
  else if mode = PadMode.SAME then dilation * (kernel_size - 1) / 2
  else 0

/-- `ARConv1d.forward` (`src/neural_ar_operations.py` lines 115-127): convolve
with the realized kernel, then for a causal convolution with nonzero padding
drop the last `padding` entries of every output channel
(`out[:, :, :-self.padding]`; the `is not 0` test on the small ints produced
by the constructor is equivalent to `≠ 0`). -/
def ARConv1dForward (cfg : ConvCfg) (causal : Bool) (weight : List (List (List Scalar)))
    (bias : List Scalar) (x : Tensor) : Tensor :=
  let out := conv1d cfg weight bias x
  if causal ∧ cfg.padding ≠ 0 then
    out.map (fun row => row.take (row.length - cfg.padding))
  else out

/-- Shape-checked application of `ARConv1d.forward`: torch raises a
`RuntimeError` when the input channel count differs from the configured
`in_channels`; that failure is modelled as `none`. -/
def ARConv1dF (cfg : ConvCfg) (causal : Bool) (weight : List (List (List Scalar)))
    (bias : List Scalar) (x : Tensor) : Option Tensor :=
  if x.length = cfg.cIn then some (ARConv1dForward cfg causal weight bias x) else none

/-! ### Spec-side convolutions for claim C4

These two definitions follow the words of the spec sentence on causal padding,
to be compared with the source-derived `ARConv1dForward`. -/

/-- Zero padding on the left only, as the spec's causal-padding sentence
describes ("pad only on the left"). -/
def padL (p : ℕ) (row : List Scalar) : List Scalar := List.replicate p 0 ++ row

/-- Convolution padded only on the left, without any crop; its output length
is `L + padding - dilation*(k-1)`. -/
def conv1dLeftPad (cfg : ConvCfg) (weight : List (List (List Scalar))) (bias : List Scalar)
    (x : Tensor) : Tensor :=
  let cinG := cfg.cIn / cfg.groups
  let coutG := cfg.cOut / cfg.groups
  let L := (x.headD []).length
  let lout := L + cfg.padding - cfg.dilation * (cfg.k - 1)
  (List.range cfg.cOut).map (fun o =>
    (List.range lout).map (fun i =>
      bias.getD o 0 +
        ((List.range cinG).map (fun c =>
          convTap (padL cfg.padding (x.getD (o / coutG * cinG + c) []))
            ((weight.getD o []).getD c []) cfg.dilation i)).sum))

/-- The literal reading of claim C4: pad only on the left by `padding` AND
additionally crop `padding` entries from the right of the output. -/
def padLeftThenCrop (cfg : ConvCfg) (weight : List (List (List Scalar))) (bias : List Scalar)
    (x : Tensor) : Tensor :=
  (conv1dLeftPad cfg weight bias x).map (fun row => row.take (row.length - cfg.padding))

/-! ### numpy arrays and masks (`channel_mask`, `create_conv_mask`) -/

/-- Errors surfaced by the embedded Python/numpy fragments. -/
inductive NpErr
  | tooManyIndices
  | indexOOB
  | broadcastMismatch
  | assertionError
deriving DecidableEq

/-- A rank-3 numpy array (`np.ones([d1, d2, d3])` has `ndim = 3`), as nested
lists: axis 0 × axis 1 × axis 2. -/
abbrev Np3 := List (List (List Scalar))

/-- One basic index expression of numpy: `:` , `i` , `i:` , `:i`. -/
inductive Idx
  | all
  | at_ (i : ℕ)
  | from_ (i : ℕ)
  | to_ (i : ℕ)

/-- Right-hand side of a numpy slice assignment as used in
`create_conv_mask`: a broadcast scalar or a rank-2 array. -/
inductive NpRhs
  | scal (v : Scalar)
  | mat (a : List (List Scalar))

/-- List of positions of an axis of length `n` selected by one index
expression (slice bounds clamp; an integer index can be out of bounds, checked
separately). -/
def Idx.sel (spec : Idx) (n : ℕ) : List ℕ :=
  match spec with
  | .all => List.range n
  | .at_ i => [i]
  | .from_ i => (List.range n).filter (fun j => i ≤ j)
  | .to_ i => (List.range n).filter (fun j => j < i)

/-- Whether an index expression is out of bounds for an axis of length `n`
(only integer indices can be; slices clamp). -/
def Idx.oob (spec : Idx) (n : ℕ) : Bool :=
  match spec with
  | .at_ i => n ≤ i
  | _ => false

/-- numpy basic slice assignment `a[specs] = rhs` on a rank-3 array.  numpy
first checks the number of index expressions against `ndim`; more than 3 on a
rank-3 array is `IndexError: too many indices for array`.  Missing trailing
expressions default to `:`.  A scalar right-hand side broadcasts to every
selected position; a rank-2 right-hand side (only used by the dead third
assignment of `create_conv_mask`, see below) assigns entry `(r, c)` of the
right-hand side to the selected position with axis-0 rank `r` and axis-1 rank
`c`, and any other pattern is a broadcast mismatch. -/
def setSlice3 (a : Np3) (specs : List Idx) (rhs : NpRhs) : Except NpErr Np3 :=
  if 3 < specs.length then .error .tooManyIndices
  else
    let s1 := specs.getD 0 .all
    let s2 := specs.getD 1 .all
    let s3 := specs.getD 2 .all
    if s1.oob a.length then
      .error .indexOOB
    else
      match rhs with
      | .scal v =>
        .ok (a.mapIdx (fun i plane =>
          if i ∈ s1.sel a.length then
            plane.mapIdx (fun j row =>
              if j ∈ s2.sel plane.length then
                row.mapIdx (fun k x => if k ∈ s3.sel row.length then v else x)
              else row)
          else plane))
      | .mat m =>
        .ok (a.mapIdx (fun i plane =>
          if i ∈ s1.sel a.length then
            plane.mapIdx (fun j row =>
              if j ∈ s2.sel plane.length then
                row.mapIdx (fun k x =>
                  if k ∈ s3.sel row.length then
                    ((m.getD ((s1.sel a.length).indexOf i) []).getD
                      ((s2.sel plane.length).indexOf j) x)
                  else x)
              else row)
          else plane))

/-- A rank-3 array of ones, `np.ones([d1, d2, d3])`. -/
def np3ones (d1 d2 d3 : ℕ) : Np3 :=
  List.replicate d1 (List.replicate d2 (List.replicate d3 (1 : Scalar)))

/-- A rank-2 ones matrix, `np.ones([r, c])`. -/
def np2ones (r c : ℕ) : List (List Scalar) :=
  List.replicate r (List.replicate c (1 : Scalar))

/-- Reverse along the last (kernel) axis, `mask[:, :, ::-1]`. -/
def np3reverseLast (a : Np3) : Np3 :=
  a.map (fun plane => plane.map (fun row => row.reverse))

/-- One pass of the `c_out >= c_in` loop body of `channel_mask`
(`src/neural_ar_operations.py` lines 42-45): rows `i*ratio ... (i+1)*ratio-1`
get columns `>= i+1` zeroed, and with `zero_diag` also column `i`. -/
def cmStepUp (ratio : ℕ) (zero_diag : Bool) (mask : List (List Scalar)) (i : ℕ) :
    List (List Scalar) :=
  mask.mapIdx (fun o row =>
    if i * ratio ≤ o ∧ o < (i + 1) * ratio then
      row.mapIdx (fun j v =>
        if i + 1 ≤ j then 0 else if zero_diag ∧ j = i then 0 else v)
    else row)

/-- One pass of the `c_out < c_in` loop body of `channel_mask`
(`src/neural_ar_operations.py` lines 48-51): row `i` gets columns
`>= (i+1)*ratio` zeroed, and with `zero_diag` also columns
`i*ratio ... (i+1)*ratio-1`. -/
def cmStepDown (ratio : ℕ) (zero_diag : Bool) (mask : List (List Scalar)) (i : ℕ) :
    List (List Scalar) :=
  mask.mapIdx (fun o row =>
    if o = i then
      row.mapIdx (fun j v =>
        if (i + 1) * ratio ≤ j then 0
        else if zero_diag ∧ i * ratio ≤ j ∧ j < (i + 1) * ratio then 0 else v)
    else row)

/-- `channel_mask` (`src/neural_ar_operations.py` lines 34-57).  The two
`assert`s guard divisibility of the channel counts and `g_in ∈ {1, c_in}`;
their failure is modelled as `assertionError`. -/
def channel_mask (c_in g_in c_out : ℕ) (zero_diag : Bool) :
    Except NpErr (List (List Scalar)) :=
  if ¬(c_in % c_out = 0 ∨ c_out % c_in = 0) then .error .assertionError
  else if ¬(g_in = 1 ∨ g_in = c_in) then .error .assertionError
  else if g_in = 1 then
    if c_in ≤ c_out then
      let ratio := c_out / c_in
      .ok ((List.range c_in).foldl (cmStepUp ratio zero_diag) (np2ones c_out c_in))
    else
      let ratio := c_in / c_out
      .ok ((List.range c_out).foldl (cmStepDown ratio zero_diag) (np2ones c_out c_in))
  else
    let mask := np2ones c_out (c_in / g_in)
    .ok (if zero_diag then mask.map (fun row => row.map (fun _ => 0)) else mask)

/-- `create_conv_mask` (`src/neural_ar_operations.py` lines 60-68).  The mask
is created rank 3 (`np.ones([c_out, c_in // g_in, kernel_size])`), yet every
subsequent assignment indexes it with FOUR index expressions
(`mask[:, :, m:, :]`, `mask[:, :, m, :m]`, `mask[:, :, m, m]`). -/
def create_conv_mask (kernel_size c_in g_in c_out : ℕ) (zero_diag mirror : Bool) :
    Except NpErr Np3 := do
  let m := (kernel_size - 1) / 2
  let mask := np3ones c_out (c_in / g_in) kernel_size
  -- mask[:, :, m:, :] = 0
  let mask ← setSlice3 mask [.all, .all, .from_ m, .all] (.scal 0)
  -- mask[:, :, m, :m] = 1
  let mask ← setSlice3 mask [.all, .all, .at_ m, .to_ m] (.scal 1)
  -- mask[:, :, m, m] = channel_mask(c_in, g_in, c_out, zero_diag)
  let cm ← channel_mask c_in g_in c_out zero_diag
  let mask ← setSlice3 mask [.all, .all, .at_ m, .at_ m] (.mat cm)
  let mask := if mirror then np3reverseLast mask else mask
  return mask

/-! ### Construction of `ARConv1d` and the modules wrapping it (claim C3) -/

/-- Python names looked up by statements of `ARConv1d.__init__`. -/
inductive PyName
  | Cin
  | Cout
deriving DecidableEq

/-- Exceptions raised during module construction. -/
inductive InitErr
  | nameError (n : PyName)
  | attributeErrorNoneType
deriving DecidableEq

/-- Names in scope at line 90 of `src/neural_ar_operations.py`: the method
locals are `self, C_in, C_out, kernel_size, stride, padding, dilation, groups,
bias, causal, mode`, and the module globals bind only the imports and the
top-level definitions (`AROPS, Identity, channel_mask, create_conv_mask, norm,
_convert_arconv_weights_to_fp16, ARConv1d, ...`).  Neither scope binds `Cin`
or `Cout`. -/
def boundAtLine90 : List PyName := []

/-- Lookup of a bare Python name: unbound names raise `NameError`. -/
def lookupName (env : List PyName) (n : PyName) : Except InitErr Unit :=
  if n ∈ env then .ok () else .error (.nameError n)

/-- Line 91 (and 106): `self.bias.type()`.  `nn.Conv1d` sets `self.bias` to
`None` when constructed with `bias=False`, and `None.type()` raises
`AttributeError`. -/
def biasTypeCall (bias : Bool) : Except InitErr Unit :=
  if bias then .ok () else .error .attributeErrorNoneType

/-- Result state of a (hypothetically) completed `ARConv1d.__init__`: the
fields assigned after the failing statements. -/
structure ARConv1dState where
  causal : Bool
  mode : PadMode
  padding : ℕ

/-- `ARConv1d.__init__` (`src/neural_ar_operations.py` lines 83-106), executed
statement by statement after the `nn.Conv1d` superclass constructor.  The
default for `bias` is `False`. -/
def ARConv1dInit (C_in C_out kernel_size stride padding dilation groups : ℕ)
    (bias causal : Bool) (mode : PadMode) : Except InitErr ARConv1dState := do
  -- line 90: print(Cin, Cout)
  lookupName boundAtLine90 .Cin
  lookupName boundAtLine90 .Cout
  -- line 91: print(self.weight.type(), self.bias.type())
  biasTypeCall bias
  -- lines 92-99: field assignments
  let st : ARConv1dState :=
    { causal := causal
      mode := mode
      padding := configuredPadding causal mode dilation kernel_size }
  -- lines 102-106 initialize the weight-norm parameters and print again
  let _ := (C_in, C_out, kernel_size, stride, padding, dilation, groups)
  biasTypeCall bias
  return st

/-- `ELUConv.__init__` (`src/neural_ar_operations.py` lines 133-140)
constructs an `ARConv1d` with `bias=True`; any exception propagates. -/
def ELUConvInit (C_in C_out kernel_size padding dilation : ℕ)
    (causal : Bool) (mode : PadMode) : Except InitErr ARConv1dState :=
  ARConv1dInit C_in C_out kernel_size 1 padding dilation 1 true causal mode

/-- `ARInvertedResidual.__init__` (`src/neural_ar_operations.py` lines
156-175) constructs its first `ARConv1d` (with the default `bias=False`)
before anything else observable; any exception propagates. -/
def ARInvertedResidualInit (inz ex dil k : ℕ) (mode : PadMode) :
    Except InitErr ARConv1dState :=
  let hidden_dim := inz * ex
  ARConv1dInit inz hidden_dim 3 1 1 1 1 false true mode

/-! ### Autoregressive cells: `ELUConv`, `ARInvertedResidual`, `CellAR`,
`PairedCellAR` (claims C1, C2, C7)

Their forward passes take the layers' realized parameters as values (see the
header: in the running program construction always fails, claim C3). -/

/-- Modelled from the spec: `thirdparty.checkpoint.checkpoint` is repository
code outside the two source files here.  Per spec section 5 the
recompute-on-backward discipline "must preserve bit-identical outputs to the
non-recompute path", so the forward value of `checkpoint(layer, (x,), params,
True)` is the wrapped layer applied to `x`. -/
def checkpointCall {α β : Type} (f : α → β) (x : α) : β := f x

/-- One entry of the layer list built by `ARInvertedResidual.__init__`: a
causal `ARConv1d` (with its realized kernel and bias values) or an `nn.ELU`
activation. -/
inductive ARLayer
  | conv (cfg : ConvCfg) (w : List (List (List Scalar))) (b : List Scalar)
  | eluA

/-- Application of one layer (`nn.Sequential` semantics applies them in
order). -/
def ARLayer.apply (ops : RealOps) : ARLayer → Tensor → Option Tensor
  | .conv cfg w b, x => ARConv1dF cfg true w b x
  | .eluA, x => some (eluT ops x)

/-- Configuration of the first convolution of `ARInvertedResidual`
(`ARConv1d(inz, hidden_dim, kernel_size=3, padding=1, causal=True,
mode='SAME')`; the constructor overwrites the passed padding with
`dilation * (kernel_size - 1) = 2`). -/
def arResCfg1 (inz hidden : ℕ) : ConvCfg :=
  { cIn := inz, cOut := hidden, k := 3
    padding := configuredPadding true .SAME 1 3, dilation := 1, groups := 1 }

/-- Configuration of the second (depthwise) convolution of
`ARInvertedResidual` (`ARConv1d(hidden_dim, hidden_dim, groups=hidden_dim,
kernel_size=k, dilation=dil, causal=True, mode='SAME')`). -/
def arResCfg2 (hidden dil k : ℕ) : ConvCfg :=
  { cIn := hidden, cOut := hidden, k := k
    padding := configuredPadding true .SAME dil k, dilation := dil, groups := hidden }

/-- The layer list of `ARInvertedResidual.__init__`
(`src/neural_ar_operations.py` lines 160-167): conv, ELU, depthwise conv,
ELU.  `hidden_dim = int(round(inz * ex))` with integer `ex`. -/
def arInvResLayers (inz ex dil k : ℕ) (w1 : List (List (List Scalar))) (b1 : List Scalar)
    (w2 : List (List (List Scalar))) (b2 : List Scalar) : List ARLayer :=
  [.conv (arResCfg1 inz (inz * ex)) w1 b1, .eluA,
   .conv (arResCfg2 (inz * ex) dil k) w2 b2, .eluA]

/-- `ARInvertedResidual.forward` (`src/neural_ar_operations.py` lines
177-183).  With `checkpoint_res` set, the loop runs
`x = checkpoint(layer, (z,), layer.parameters(), True)` for every layer and
returns the last `x`: every layer is applied to the ORIGINAL argument `z`,
not to the previous layer's output, and the intermediate results are
discarded.  Without the flag it runs `self.convz(z)`, the sequential
composition.  The conditioning argument `ftr` is never used. -/
def arInvResForward (ops : RealOps) (checkpoint_res : Bool) (layers : List ARLayer)
    (z ftr : Tensor) : Option Tensor :=
  if checkpoint_res then
    layers.foldlM (fun _x layer => checkpointCall (layer.apply ops) z) z
  else
    layers.foldlM (fun x layer => layer.apply ops x) z

/-- `ELUConv.forward` (`src/neural_ar_operations.py` lines 142-153):
`F.elu` then `conv_0`, the latter under `checkpoint` when `checkpoint_res`
is set (the wrapped call receives the elu output, so both branches agree). -/
def eluConvForward (ops : RealOps) (checkpoint_res : Bool) (cfg : ConvCfg) (causal : Bool)
    (w : List (List (List Scalar))) (b : List Scalar) (x : Tensor) : Option Tensor :=
  let out := eluT ops x
  if checkpoint_res then checkpointCall (ARConv1dF cfg causal w b) out
  else ARConv1dF cfg causal w b out

/-- Realized parameters of one `CellAR` (affine variant): the two
`ARInvertedResidual` convolutions and the final `mu` projection
(`ELUConv(hidden_dim, num_z, kernel_size=1, padding=0, causal=True)`). -/
structure CellARParams where
  numZ : ℕ
  w1 : List (List (List Scalar))
  b1 : List Scalar
  w2 : List (List (List Scalar))
  b2 : List Scalar
  wMu : List (List (List Scalar))
  bMu : List Scalar

/-- Configuration of the `mu` convolution of `CellAR`: kernel size 1, causal,
`SAME`, so the configured padding is `1 * (1 - 1) = 0`. -/
def muCfg (numZ : ℕ) : ConvCfg :=
  { cIn := numZ * 6, cOut := numZ, k := 1
    padding := configuredPadding true .SAME 1 1, dilation := 1, groups := 1 }

/-- `CellAR.forward` (`src/model.py` lines 77-88) with the hardcoded
`use_mix_log_cdf = False` (line 69): hidden features from the
`ARInvertedResidual` (built with `ex = 6` and the default `dil=1, k=5`), then
`mu`, `new_z = z - mu`, `log_det = torch.zeros_like(new_z)`. -/
def cellARForward (ops : RealOps) (checkpoint_res : Bool) (p : CellARParams)
    (z ftr : Tensor) : Option (Tensor × Tensor) := do
  let s ← arInvResForward ops checkpoint_res
    (arInvResLayers p.numZ 6 1 5 p.w1 p.b1 p.w2 p.b2) z ftr
  let mu ← eluConvForward ops checkpoint_res (muCfg p.numZ) true p.wMu p.bMu s
  let new_z := tensorSub z mu
  return (new_z, zerosLike new_z)

/-- `PairedCellAR.forward` (`src/model.py` lines 97-102): the second cell is
applied to the first cell's output with the same conditioning features, and
the log-determinants are added (`log_det1 += log_det2`). -/
def pairedCellARForward (ops : RealOps) (checkpoint_res : Bool)
    (p1 p2 : CellARParams) (z ftr : Tensor) : Option (Tensor × Tensor) := do
  let (z1, log_det1) ← cellARForward ops checkpoint_res p1 z ftr
  let (z2, log_det2) ← cellARForward ops checkpoint_res p2 z1 ftr
  return (z2, tensorAdd log_det1 log_det2)

/-- Spec-side shift of one affine cell ("computes a location shift mu via a
final causal projection", spec 4.4): elu-conv-elu-depthwise-conv-elu-conv
applied to the latent, with the same configurations as `cellARForward` but
written as a plain composition of the total convolution maps. -/
def muShift (ops : RealOps) (p : CellARParams) (z : Tensor) : Tensor :=
  let h1 := ARConv1dForward (arResCfg1 p.numZ (p.numZ * 6)) true p.w1 p.b1 z
  let h2 := ARConv1dForward (arResCfg2 (p.numZ * 6) 1 5) true p.w2 p.b2 (eluT ops h1)
  ARConv1dForward (muCfg p.numZ) true p.wMu p.bMu (eluT ops (eluT ops h2))

/-! ### `mix_log_cdf_flow` (claim C9)

The flow acts elementwise over the batch/channel/spatial axes with a
reduction over the mixture axis (`dim=2`); the embedding works at one such
position: `z1, log_a, b` are scalars and `logit_pi, mu, log_s` are the
`num_mix`-long vectors at that position.  `torch.logsumexp` and
`torch.log_softmax` are max-shifted stable implementations of the identities
used below, which are their defining values. -/

/-- `torch.logsumexp` over a vector. -/
def logsumexp (ops : RealOps) (xs : List Scalar) : Scalar :=
  ops.log ((xs.map ops.exp).sum)

/-- `torch.log_softmax` over a vector: `v - logsumexp v`. -/
def logSoftmax (ops : RealOps) (xs : List Scalar) : List Scalar :=
  xs.map (fun v => v - logsumexp ops xs)

/-- `torch.clamp(log_s, min=-7)` (`src/neural_ar_operations.py` line 214). -/
def clampLogS (log_s : List Scalar) : List Scalar := log_s.map (fun v => max v (-7))

/-- `u = -(z - mu) * torch.exp(-log_s)` (line 218). -/
def mixU (ops : RealOps) (z : Scalar) (mu log_s : List Scalar) : List Scalar :=
  List.zipWith (fun m s => -(z - m) * ops.exp (-s)) mu log_s

/-- Log of the mixture CDF via log-sum-exp (lines 219-222):
`logsumexp(log_pi - softplus(u))`.  Expects the already clamped `log_s`. -/
def logMixCDF (ops : RealOps) (z : Scalar) (logit_pi mu log_s : List Scalar) : Scalar :=
  logsumexp ops
    (List.zipWith (fun lp su => lp - su) (logSoftmax ops logit_pi)
      ((mixU ops z mu log_s).map ops.softplus))

/-- Log of the mixture CDF complement via log-sum-exp (lines 219-223):
`logsumexp(log_pi - softplus(u) + u)`.  Expects the already clamped
`log_s`. -/
def logOneMinusMixCDF (ops : RealOps) (z : Scalar) (logit_pi mu log_s : List Scalar) :
    Scalar :=
  logsumexp ops
    (List.zipWith (· + ·)
      (List.zipWith (fun lp su => lp - su) (logSoftmax ops logit_pi)
        ((mixU ops z mu log_s).map ops.softplus))
      (mixU ops z mu log_s))

/-- Log of the mixture density (line 230):
`logsumexp(log_pi + u - log_s - 2 * softplus(u))`.  Expects the already
clamped `log_s`. -/
def logMixPDF (ops : RealOps) (z : Scalar) (logit_pi mu log_s : List Scalar) : Scalar :=
  logsumexp ops
    (List.zipWith (fun lpu lssu => lpu.1 + lpu.2 - lssu.1 - 2 * lssu.2)
      ((logSoftmax ops logit_pi).zip (mixU ops z mu log_s))
      (log_s.zip ((mixU ops z mu log_s).map ops.softplus)))

/-- `mix_log_cdf_flow` (`src/neural_ar_operations.py` lines 206-232), written
statement by statement in source order. -/
def mix_log_cdf_flow (ops : RealOps) (z1 : Scalar) (logit_pi mu log_s0 : List Scalar)
    (log_a b : Scalar) : Scalar × Scalar :=
  let log_s := log_s0.map (fun v => max v (-7))
  let z := z1
  let log_pi := logSoftmax ops logit_pi
  let u := List.zipWith (fun m s => -(z - m) * ops.exp (-s)) mu log_s
  let softplus_u := u.map ops.softplus
  let log_mix_cdf := List.zipWith (fun lp su => lp - su) log_pi softplus_u
  let log_one_minus_mix_cdf := List.zipWith (· + ·) log_mix_cdf u
  let log_mix_cdf := logsumexp ops log_mix_cdf
  let log_one_minus_mix_cdf := logsumexp ops log_one_minus_mix_cdf
  let new_z := ops.exp log_a * (log_mix_cdf - log_one_minus_mix_cdf) + b
  let log_mix_pdf := logsumexp ops
    (List.zipWith (fun lpu lssu => lpu.1 + lpu.2 - lssu.1 - 2 * lssu.2)
      (log_pi.zip u) (log_s.zip softplus_u))
  let log_det := log_a - log_mix_cdf - log_one_minus_mix_cdf + log_mix_pdf
  (new_z, log_det)

/-! ### KL accounting and the normalizing-flow loop (claim C8) -/

/-- `self.with_nf = num_nf > 0` (`src/model.py` line 168). -/
def withNf (num_nf : ℕ) : Bool := decide (0 < num_nf)

/-- The normalizing-flow application loop (`src/model.py` lines 393-395 and
428-431): `z, log_det = nf_cell(z, ftr); log_q_conv -= log_det` for each
flow cell in order. -/
def applyNFCells (cells : List (Tensor → Tensor → Option (Tensor × Tensor)))
    (z ftr log_q_conv : Tensor) : Option (Tensor × Tensor) :=
  cells.foldlM (fun acc cell => do
    let (z2, log_det) ← cell acc.1 ftr
    return (z2, tensorSub acc.2 log_det)) (z, log_q_conv)

/-- Spec-side final latent of a chain of total flow cells. -/
def nfFinalZ (fs : List (Tensor → Tensor → Tensor × Tensor)) (z ftr : Tensor) : Tensor :=
  fs.foldl (fun z f => (f z ftr).1) z

/-- Spec-side log-determinants produced along the trajectory of a chain of
total flow cells. -/
def nfLogDets : List (Tensor → Tensor → Tensor × Tensor) → Tensor → Tensor → List Tensor
  | [], _, _ => []
  | f :: fs, z, ftr => (f z ftr).2 :: nfLogDets fs (f z ftr).1 ftr

/-- Per-group KL term of the loss loop (`src/model.py` lines 462-466): with
flows, the difference of accumulated log-densities; otherwise the closed-form
`q.kl(p)`.  The closed-form KL lives in `distributions.py` (not one of the
two source files), so it is a function parameter `kl`; `Python zip` truncates
to the shortest list, as `List.zip` does. -/
def klPerVarList {Q : Type} (kl : Q → Q → Tensor) (with_nf : Bool)
    (qs ps : List Q) (lqs lps : List Tensor) : List Tensor :=
  ((qs.zip ps).zip (lqs.zip lps)).map (fun e =>
    if with_nf then tensorSub e.2.1 e.2.2 else kl e.1.1 e.1.2)

/-! ### Weight-decay-norm annealing (claim C10) -/

/-- Failure of the `assert` at `src/model.py` line 509. -/
inductive AssertErr
  | wdnEndpointsNotPositive
deriving DecidableEq

/-- The weight-decay-norm coefficient step (`src/model.py` lines 508-513):
with annealing requested, assert both endpoints positive and log-linearly
interpolate (`np.exp((1-kl_coeff)*np.log(init) + kl_coeff*np.log(final))`);
otherwise use the configured final value unchanged. -/
def wdnCoeffStep (ops : RealOps) (weight_decay_norm_anneal : Bool)
    (weight_decay_norm_init weight_decay_norm kl_coeff : Scalar) :
    Except AssertErr Scalar :=
  if weight_decay_norm_anneal then
    if 0 < weight_decay_norm_init ∧ 0 < weight_decay_norm then
      .ok (ops.exp ((1 - kl_coeff) * ops.log weight_decay_norm_init +
        kl_coeff * ops.log weight_decay_norm))
    else .error .wdnEndpointsNotPositive
  else .ok weight_decay_norm

/-! ### Encoder/decoder tower traversal (claim C6) -/

/-- Cell types appended by `init_encoder_tower` (`src/model.py` 229-255). -/
inductive EncTag
  | normal_enc
  | combiner_enc
  | down_enc
deriving DecidableEq

/-- Cell types appended by `init_decoder_tower` (`src/model.py` 291-315). -/
inductive DecTag
  | normal_dec
  | combiner_dec
  | up_dec
deriving DecidableEq

/-- `init_encoder_tower` (`src/model.py` lines 229-255), recorded as the list
of appended cell types: per scale `s` and group `g`, `num_cell_per_cond_enc`
normal cells, then an `EncCombinerCell` unless `(s, g)` is the last
scale/group pair; a down cell after each scale but the last. -/
def initEncoderTowerTags (S : ℕ) (groups : List ℕ) (cellsPerCondEnc : ℕ) : List EncTag :=
  (List.range S).flatMap (fun s =>
    ((List.range (groups.getD s 0)).flatMap (fun g =>
      List.replicate cellsPerCondEnc EncTag.normal_enc ++
      (if s = S - 1 ∧ g = groups.getD s 0 - 1 then [] else [EncTag.combiner_enc]))) ++
    (if s < S - 1 then [EncTag.down_enc] else []))

/-- `init_decoder_tower` (`src/model.py` lines 291-315), recorded as the list
of appended cell types: per scale `s` and group `g` over
`groups[S - s - 1]`, `num_cell_per_cond_dec` normal cells unless
`(s, g) = (0, 0)`, then always a `DecCombinerCell`; an up cell after each
scale but the last. -/
def initDecoderTowerTags (S : ℕ) (groups : List ℕ) (cellsPerCondDec : ℕ) : List DecTag :=
  (List.range S).flatMap (fun s =>
    ((List.range (groups.getD (S - s - 1) 0)).flatMap (fun g =>
      (if s = 0 ∧ g = 0 then [] else List.replicate cellsPerCondDec DecTag.normal_dec) ++
      [DecTag.combiner_dec])) ++
    (if s < S - 1 then [DecTag.up_dec] else []))

/-- An encoder-tower cell as the forward pass sees it: either an
`EncCombinerCell` (`cell_type == 'combiner_enc'`, a two-stream fusion) or any
other cell (a one-stream transform).  The numeric payloads are abstract. -/
inductive ECell (α : Type)
  | comb (g : α → α → α)
  | plain (f : α → α)

/-- A decoder-tower cell: a `DecCombinerCell` (`cell_type == 'combiner_dec'`,
consuming the stream and the freshly sampled latent) or any other cell. -/
inductive DCell (α β : Type)
  | comb (g : α → β → α)
  | plain (f : α → α)

/-- Attach abstract payloads to the constructed encoder tags. -/
def buildEncCells {α : Type} (tags : List EncTag) (mkComb : ℕ → α → α → α)
    (mkPlain : ℕ → α → α) : List (ECell α) :=
  tags.enum.map (fun it =>
    match it.2 with
    | .combiner_enc => .comb (mkComb it.1)
    | _ => .plain (mkPlain it.1))

/-- Attach abstract payloads to the constructed decoder tags. -/
def buildDecCells {α β : Type} (tags : List DecTag) (mkComb : ℕ → α → β → α)
    (mkPlain : ℕ → α → α) : List (DCell α β) :=
  tags.enum.map (fun it =>
    match it.2 with
    | .combiner_dec => .comb (mkComb it.1)
    | _ => .plain (mkPlain it.1))

/-- Number of combiner cells in an encoder cell list. -/
def combCountE {α : Type} (cells : List (ECell α)) : ℕ :=
  cells.countP (fun c => match c with | .comb _ => true | _ => false)

/-- Number of combiner cells in a decoder cell list. -/
def combCountD {α β : Type} (cells : List (DCell α β)) : ℕ :=
  cells.countP (fun c => match c with | .comb _ => true | _ => false)

/-- The encoder-tower loop (`src/model.py` lines 370-377): a combiner cell is
not evaluated; the cell and the current stream are appended to the two cache
lists and the stream continues unchanged; every other cell transforms the
stream. -/
def encTowerLoop {α : Type} : List (ECell α) → α → List (α → α → α) → List α →
    List (α → α → α) × List α × α
  | [], s, ce, cs => (ce, cs, s)
  | .comb g :: cells, s, ce, cs => encTowerLoop cells s (ce ++ [g]) (cs ++ [s])
  | .plain f :: cells, s, ce, cs => encTowerLoop cells (f s) ce cs

/-- The encoder pass over the tower including the cache reversals
(`src/model.py` lines 370-381). -/
def runEncTower {α : Type} (cells : List (ECell α)) (s : α) :
    List (α → α → α) × List α × α :=
  let r := encTowerLoop cells s [] []
  (r.1.reverse, r.2.1.reverse, r.2.2)

/-- Spec-side recursion for the encoder pass (pre-reversal): each combiner
contributes its handle and the current stream and leaves the stream
untouched; the final stream is the fold of the non-combiner cells only. -/
def encSpec {α : Type} : List (ECell α) → α → List (α → α → α) × List α × α
  | [], s => ([], [], s)
  | .comb g :: cells, s =>
    let r := encSpec cells s
    (g :: r.1, s :: r.2.1, r.2.2)
  | .plain f :: cells, s => encSpec cells (f s)

/-- The decoder-tower loop (`src/model.py` lines 409-445), instrumented with
a trace.  `ce, cs` are the reversed caches; `newZ` abstracts lines 415-439
(prior/posterior formation from the decoder stream `s` and the combiner
feature `ftr`, reparameterized sampling, the normalizing-flow chain): it
returns the latent injected at a combiner with ordinal `idx > 0`.  At a
combiner, cache pair `idx - 1` is consumed when `idx > 0`, the latent is
injected (`s = cell(s, z)`) and `idx` advances; other cells transform the
stream.  The trace records `(combiner ordinal, consumed cache index)`. -/
def decTowerLoop {α β : Type} (ce : List (α → α → α)) (cs : List α)
    (newZ : ℕ → α → α → β) :
    List (DCell α β) → α → β → ℕ → List (ℕ × ℕ) → α × β × ℕ × List (ℕ × ℕ)
  | [], s, z, idx, tr => (s, z, idx, tr)
  | .comb cell :: cells, s, z, idx, tr =>
    if idx = 0 then
      decTowerLoop ce cs newZ cells (cell s z) z (idx + 1) tr
    else
      let ftr := (ce.getD (idx - 1) (fun a _ => a)) (cs.getD (idx - 1) s) s
      let z2 := newZ idx ftr s
      decTowerLoop ce cs newZ cells (cell s z2) z2 (idx + 1) (tr ++ [(idx, idx - 1)])
  | .plain f :: cells, s, z, idx, tr => decTowerLoop ce cs newZ cells (f s) z idx tr

/-! ### Concrete data for evaluations -/

/-- Concrete first-conv kernel for evaluating claim C1 at `inz = 1, ex = 6`
(the configuration `CellAR` builds): shape `(6, 1, 3)`, all taps 1. -/
def c1w1 : List (List (List Scalar)) := List.replicate 6 [[1, 1, 1]]

/-- Concrete depthwise kernel for claim C1: shape `(6, 1, 5)`, all taps 1. -/
def c1w2 : List (List (List Scalar)) := List.replicate 6 [[1, 1, 1, 1, 1]]

/-- Concrete bias vector for claim C1: six zeros. -/
def c1b : List Scalar := List.replicate 6 0

/-- Convolution configuration of a causal `SAME` stride-1 `ARConv1d`, as the
constructor produces it. -/
def causalSameCfg (ci co k d g : ℕ) : ConvCfg :=
  { cIn := ci, cOut := co, k := k, padding := configuredPadding true .SAME d k
    dilation := d, groups := g }

/-- Concrete single-latent-channel `CellAR` parameters used to evaluate claim
C7 (empty kernels; the proved identity holds for any parameter values). -/
def c7p : CellARParams :=
  { numZ := 1, w1 := [], b1 := [], w2 := [], b2 := [], wMu := [], bMu := [] }

/-! ## Theorems -/

/-! ### Supporting lemmas -/

theorem getD_range_map {γ : Type} (f : ℕ → γ) (n i : ℕ) (d : γ) :
    ((List.range n).map f).getD i d = if i < n then f i else d := by
  by_cases h : i < n
  · rw [List.getD_eq_getElem?_getD, List.getElem?_map, List.getElem?_range h]
    simp [h]
  · rw [List.getD_eq_getElem?_getD]
    rw [List.getElem?_eq_none (by simpa using Nat.le_of_not_lt h)]
    simp [h]

theorem padL_getD (p : ℕ) (row : List Scalar) (j : ℕ) :
    (padL p row).getD j 0 = if j < p then 0 else row.getD (j - p) 0 := by
  unfold padL
  rw [List.getD_eq_getElem?_getD, List.getElem?_append]
  simp only [List.length_replicate]
  by_cases h : j < p
  · simp [List.getElem?_replicate, h]
  · simp [h, List.getD_eq_getElem?_getD]

theorem padLR_getD (p : ℕ) (row : List Scalar) (j : ℕ) :
    (padLR p row).getD j 0 = if j < p then 0 else row.getD (j - p) 0 := by
  have hsplit : padLR p row = padL p row ++ List.replicate p 0 := rfl
  rw [hsplit, List.getD_eq_getElem?_getD, List.getElem?_append]
  by_cases hin : j < (padL p row).length
  · simp only [hin, if_true]
    rw [← List.getD_eq_getElem?_getD]
    exact padL_getD p row j
  · simp only [hin, if_false]
    have hlen : (padL p row).length = p + row.length := by
      simp [padL]
    have hj : ¬ j < p := by
      rw [hlen] at hin
      omega
    have hrow : row.length ≤ j - p := by
      rw [hlen] at hin
      omega
    simp only [hj, if_false]
    rw [List.getD_eq_getElem?_getD, List.getElem?_eq_none hrow]
    rw [List.getElem?_replicate]
    split <;> simp

theorem convTap_padLR_eq_padL (p : ℕ) (r w : List Scalar) (d i : ℕ) :
    convTap (padLR p r) w d i = convTap (padL p r) w d i := by
  unfold convTap
  congr 1
  apply List.map_congr_left
  intro t _
  rw [padLR_getD, padL_getD]

/-- The net effect of symmetric padding followed by cropping `padding`
entries from the right equals a convolution padded only on the left, for any
causal-`SAME` configuration (`padding = dilation * (k - 1)`). -/
theorem cropped_conv1d_eq_leftPad (cfg : ConvCfg)
    (hp : cfg.padding = cfg.dilation * (cfg.k - 1))
    (w : List (List (List Scalar))) (b : List Scalar) (x : Tensor) :
    (conv1d cfg w b x).map (fun row => row.take (row.length - cfg.padding)) =
      conv1dLeftPad cfg w b x := by
  unfold conv1d conv1dLeftPad
  simp only [List.map_map]
  apply List.map_congr_left
  intro o _
  simp only [Function.comp_apply, List.length_map, List.length_range]
  rw [← List.map_take, List.take_range]
  have h1 : (x.headD []).length + 2 * cfg.padding - cfg.dilation * (cfg.k - 1) =
      (x.headD []).length + cfg.padding := by omega
  have h2 : (x.headD []).length + cfg.padding - cfg.dilation * (cfg.k - 1) =
      (x.headD []).length := by omega
  rw [h1, h2]
  have h3 : (x.headD []).length + cfg.padding - cfg.padding = (x.headD []).length := by
    omega
  rw [h3]
  have h4 : min (x.headD []).length ((x.headD []).length + cfg.padding) =
      (x.headD []).length := by omega
  rw [h4]
  apply List.map_congr_left
  intro i _
  congr 1
  apply congrArg List.sum
  apply List.map_congr_left
  intro c _
  exact convTap_padLR_eq_padL _ _ _ _ _

theorem conv1dLeftPad_row_mem (cfg : ConvCfg) (w : List (List (List Scalar)))
    (b : List Scalar) (x : Tensor) :
    ∀ row ∈ conv1dLeftPad cfg w b x,
      row.length = (x.headD []).length + cfg.padding - cfg.dilation * (cfg.k - 1) := by
  unfold conv1dLeftPad
  intro row hrow
  simp only [List.mem_map, List.mem_range] at hrow
  obtain ⟨o, _, rfl⟩ := hrow
  simp

/-- `ARConv1dForward` of a causal-`SAME` configuration is exactly the
left-padded convolution. -/
theorem ARConv1dForward_eq_leftPad (cfg : ConvCfg)
    (hp : cfg.padding = cfg.dilation * (cfg.k - 1))
    (w : List (List (List Scalar))) (b : List Scalar) (x : Tensor) :
    ARConv1dForward cfg true w b x = conv1dLeftPad cfg w b x := by
  unfold ARConv1dForward
  by_cases h : cfg.padding ≠ 0
  · rw [if_pos ⟨rfl, h⟩]
    exact cropped_conv1d_eq_leftPad cfg hp w b x
  · rw [if_neg (fun hc => h hc.2)]
    rw [← cropped_conv1d_eq_leftPad cfg hp w b x]
    push_neg at h
    rw [h]
    conv_lhs => rw [← List.map_id (conv1d cfg w b x)]
    apply List.map_congr_left
    intro row _
    simp

/-- Entry `(o, i)` of the left-padded convolution, through `getD`. -/
theorem conv1dLeftPad_getD (cfg : ConvCfg) (w : List (List (List Scalar)))
    (b : List Scalar) (x : Tensor) (o i : ℕ) :
    ((conv1dLeftPad cfg w b x).getD o []).getD i 0 =
      if o < cfg.cOut ∧
          i < (x.headD []).length + cfg.padding - cfg.dilation * (cfg.k - 1) then
        b.getD o 0 +
          ((List.range (cfg.cIn / cfg.groups)).map (fun c =>
            convTap (padL cfg.padding (x.getD (o / (cfg.cOut / cfg.groups) *
                (cfg.cIn / cfg.groups) + c) []))
              ((w.getD o []).getD c []) cfg.dilation i)).sum
      else 0 := by
  unfold conv1dLeftPad
  rw [getD_range_map]
  by_cases ho : o < cfg.cOut
  · simp only [ho, if_true]
    rw [getD_range_map]
    by_cases hi : i < (x.headD []).length + cfg.padding - cfg.dilation * (cfg.k - 1)
    · simp [ho, hi]
    · simp [ho, hi]
  · simp [ho]

/-- Kernel rows accessed through `getD` have at most `k` taps when every
stored row has exactly `k`. -/
theorem kernel_row_le (w : List (List (List Scalar))) (k : ℕ)
    (hw : ∀ wo ∈ w, ∀ wc ∈ wo, wc.length = k) (o c : ℕ) :
    ((w.getD o []).getD c []).length ≤ k := by
  by_cases h1 : o < w.length
  · have ho : w.getD o [] = w[o] := by
      rw [List.getD_eq_getElem?_getD, List.getElem?_eq_getElem h1]
      rfl
    rw [ho]
    by_cases h2 : c < w[o].length
    · have hc : (w[o]).getD c [] = w[o][c] := by
        rw [List.getD_eq_getElem?_getD, List.getElem?_eq_getElem h2]
        rfl
      rw [hc, hw w[o] (List.getElem_mem h1) w[o][c] (List.getElem_mem h2)]
    · have hc : (w[o]).getD c [] = [] := by
        rw [List.getD_eq_getElem?_getD, List.getElem?_eq_none (Nat.le_of_not_lt h2)]
        rfl
      rw [hc]
      simp
  · have ho : w.getD o [] = [] := by
      rw [List.getD_eq_getElem?_getD, List.getElem?_eq_none (Nat.le_of_not_lt h1)]
      rfl
    rw [ho]
    simp

/-- C4 (amended): for every causal `ARConv1d` in `SAME` mode with stride 1,
the configured padding equals `dilation * (kernel_size - 1)`; `F.conv1d`
zero-pads BOTH ends by that amount (not only the left) and the same amount is
cropped from the right of the output; the net result equals, entry for entry,
a convolution padded only on the left (`conv1dLeftPad`), every output channel
has the input's length, and output position `i` is invariant to perturbing
input positions `> i` for every input — the only amendment to the claim is
that the padding is symmetric rather than left-only, the crop restoring the
left-only behaviour. -/
theorem C4_causal_same_conv (ci co k d g : ℕ) (hk : 1 ≤ k)
    (w : List (List (List Scalar))) (b : List Scalar)
    (hw : ∀ wo ∈ w, ∀ wc ∈ wo, wc.length = k) (x : Tensor) :
    (causalSameCfg ci co k d g).padding = d * (k - 1) ∧
    (∀ row ∈ ARConv1dForward (causalSameCfg ci co k d g) true w b x,
      row.length = (x.headD []).length) ∧
    ARConv1dForward (causalSameCfg ci co k d g) true w b x =
      conv1dLeftPad (causalSameCfg ci co k d g) w b x ∧
    (∀ x2 : Tensor, (x2.headD []).length = (x.headD []).length →
      ∀ i, (∀ c j, j ≤ i → (x.getD c []).getD j 0 = (x2.getD c []).getD j 0) →
        ∀ o,
          ((ARConv1dForward (causalSameCfg ci co k d g) true w b x).getD o []).getD i 0 =
          ((ARConv1dForward (causalSameCfg ci co k d g) true w b x2).getD o []).getD i 0) := by
  have hp : (causalSameCfg ci co k d g).padding =
      (causalSameCfg ci co k d g).dilation * ((causalSameCfg ci co k d g).k - 1) := rfl
  have e1 : (causalSameCfg ci co k d g).dilation = d := rfl
  have e2 : (causalSameCfg ci co k d g).padding = d * (k - 1) := rfl
  have e3 : (causalSameCfg ci co k d g).k = k := rfl
  refine ⟨rfl, ?_, ARConv1dForward_eq_leftPad _ hp w b x, ?_⟩
  · intro row hrow
    rw [ARConv1dForward_eq_leftPad _ hp w b x] at hrow
    have hlen := conv1dLeftPad_row_mem _ w b x row hrow
    rw [e1, e2, e3] at hlen
    rw [hlen]
    omega
  · intro x2 hL i hagree o
    rw [ARConv1dForward_eq_leftPad _ hp w b x, ARConv1dForward_eq_leftPad _ hp w b x2]
    rw [conv1dLeftPad_getD, conv1dLeftPad_getD, hL]
    split_ifs with hc
    · congr 1
      apply congrArg List.sum
      apply List.map_congr_left
      intro ch _
      unfold convTap
      apply congrArg List.sum
      apply List.map_congr_left
      intro t ht
      simp only [List.mem_range] at ht
      congr 1
      rw [padL_getD, padL_getD]
      split_ifs with hfut
      · rfl
      · apply hagree
        have hkle := kernel_row_le w k hw o ch
        have htk : t < k := Nat.lt_of_lt_of_le ht hkle
        have htd : t * (causalSameCfg ci co k d g).dilation ≤
            (causalSameCfg ci co k d g).padding := by
          rw [e1, e2]
          calc t * d ≤ (k - 1) * d := Nat.mul_le_mul_right d (by omega)
          _ = d * (k - 1) := Nat.mul_comm _ _
        omega
    · rfl

/-- C4 (counterexample): the claim as stated says the code pads ONLY on the
left and crops `padding` entries from the right while keeping the output
length equal to the input length.  A convolution that actually does that
(`padLeftThenCrop`, k = 3, dilation 1, padding 2) maps the length-3 input
`[[1, 2, 3]]` to a single-entry channel, whereas `ARConv1d.forward` (which
pads both ends before cropping) returns a length-3 channel — so the claimed
conjunction is false of the code at this input. -/
theorem C4_left_only_padding_refuted :
    ((padLeftThenCrop (causalSameCfg 1 1 3 1 1) [[[1, 1, 1]]] [0]
        [[1, 2, 3]]).headD []).length = 1 ∧
    ((ARConv1dForward (causalSameCfg 1 1 3 1 1) true [[[1, 1, 1]]] [0]
        [[1, 2, 3]]).headD []).length = 3 := by
  decide

/-- Witness for C4: the amended theorem applied at a concrete kernel and
input. -/
theorem C4_causal_same_conv_witness :
    ARConv1dForward (causalSameCfg 1 1 3 1 1) true [[[1, 1, 1]]] [0] [[1, 2, 3]] =
      conv1dLeftPad (causalSameCfg 1 1 3 1 1) [[[1, 1, 1]]] [0] [[1, 2, 3]] :=
  (C4_causal_same_conv 1 1 3 1 1 (by decide) [[[1, 1, 1]]] [0] (by decide)
    [[1, 2, 3]]).2.2.1

/-- C3: constructing an `ARConv1d` raises for every argument list.  Line 90
(`print(Cin, Cout)`) references the names `Cin` and `Cout`, which are bound
neither among the method locals (the parameters are `C_in`, `C_out`) nor at
module level, so a `NameError` is raised first; line 91 additionally calls
`.type()` on `self.bias`, which is `None` under the default `bias=False`
(second conjunct evaluates that statement in isolation).  Consequently
neither `ELUConv` nor `ARInvertedResidual`, both of which construct an
`ARConv1d`, can ever be instantiated. -/
theorem C3_arconv1d_never_constructs :
    (∀ C_in C_out kernel_size stride padding dilation groups bias causal mode,
      ARConv1dInit C_in C_out kernel_size stride padding dilation groups bias causal mode =
        .error (.nameError .Cin)) ∧
    biasTypeCall false = .error .attributeErrorNoneType ∧
    (∀ C_in C_out kernel_size padding dilation causal mode,
      ELUConvInit C_in C_out kernel_size padding dilation causal mode =
        .error (.nameError .Cin)) ∧
    (∀ inz ex dil k mode,
      ARInvertedResidualInit inz ex dil k mode = .error (.nameError .Cin)) :=
  ⟨fun _ _ _ _ _ _ _ _ _ _ => rfl, rfl, fun _ _ _ _ _ _ _ => rfl,
    fun _ _ _ _ _ => rfl⟩

/-- C2: `ARInvertedResidual.forward` never reads its conditioning argument
`ftr` (both its branches process only `z`), and consequently the affine
`CellAR.forward` returns identical results for identical latents and
parameters under different conditioning tensors. -/
theorem C2_ar_cells_ignore_ftr (ops : RealOps) (checkpoint_res : Bool)
    (layers : List ARLayer) (p : CellARParams) (z ftr1 ftr2 : Tensor) :
    arInvResForward ops checkpoint_res layers z ftr1 =
      arInvResForward ops checkpoint_res layers z ftr2 ∧
    cellARForward ops checkpoint_res p z ftr1 =
      cellARForward ops checkpoint_res p z ftr2 :=
  ⟨rfl, rfl⟩

/-- C5: `create_conv_mask` never returns a mask.  The mask is created as a
rank-3 array `np.ones([c_out, c_in // g_in, kernel_size])`, but the very
first masked assignment `mask[:, :, m:, :] = 0` (line 63) applies FOUR index
expressions to it, which numpy rejects with `IndexError: too many indices for
array` for every argument list — before `channel_mask` or the mirror flag is
ever consulted. -/
theorem C5_create_conv_mask_raises :
    ∀ kernel_size c_in g_in c_out zero_diag mirror,
      create_conv_mask kernel_size c_in g_in c_out zero_diag mirror =
        .error .tooManyIndices :=
  fun _ _ _ _ _ _ => rfl

/-- C1: the recompute-on-backward branch of `ARInvertedResidual.forward` is
NOT output-preserving.  The loop `x = checkpoint(layer, (z,), ...)` feeds the
ORIGINAL input `z` to every layer instead of chaining, so the depthwise
convolution receives a tensor with `inz` channels where it expects
`hidden_dim = 6 * inz`: at `inz = 1` (kernels `c1w1`/`c1w2`, latent
`[[1]]`) the checkpoint path fails with a channel-mismatch RuntimeError
(`none`) while the plain path returns the composed 6-channel result. -/
theorem C1_checkpoint_path_diverges :
    arInvResForward ops0 true (arInvResLayers 1 6 1 5 c1w1 c1b c1w2 c1b) [[1]] [] = none ∧
    arInvResForward ops0 false (arInvResLayers 1 6 1 5 c1w1 c1b c1w2 c1b) [[1]] [] =
      some [[1], [1], [1], [1], [1], [1]] := by
  decide

theorem conv1d_length (cfg : ConvCfg) (w : List (List (List Scalar))) (b : List Scalar)
    (x : Tensor) : (conv1d cfg w b x).length = cfg.cOut := by
  unfold conv1d
  simp

theorem ARConv1dForward_length (cfg : ConvCfg) (causal : Bool)
    (w : List (List (List Scalar))) (b : List Scalar) (x : Tensor) :
    (ARConv1dForward cfg causal w b x).length = cfg.cOut := by
  unfold ARConv1dForward
  split
  · rw [List.length_map, conv1d_length]
  · exact conv1d_length cfg w b x

theorem eluT_length (ops : RealOps) (t : Tensor) : (eluT ops t).length = t.length := by
  unfold eluT
  simp

theorem tensorSub_length (a b : Tensor) :
    (tensorSub a b).length = min a.length b.length := by
  unfold tensorSub
  simp

theorem zeros_row_entries (r1 r2 : List Scalar) :
    ∀ v ∈ List.zipWith (fun x y => x + y) (r1.map (fun _ => (0 : Scalar)))
      (r2.map (fun _ => (0 : Scalar))), v = 0 := by
  induction r1 generalizing r2 with
  | nil => simp
  | cons a r ih =>
    cases r2 with
    | nil => simp
    | cons b r2 =>
      intro v hv
      simp only [List.map_cons, List.zipWith_cons_cons, List.mem_cons] at hv
      rcases hv with h | h
      · rw [h]
        simp
      · exact ih r2 v h

theorem tensorAdd_zerosLike_entries (a b : Tensor) :
    ∀ row ∈ tensorAdd (zerosLike a) (zerosLike b), ∀ v ∈ row, v = 0 := by
  induction a generalizing b with
  | nil => simp [tensorAdd, zerosLike]
  | cons ra a ih =>
    cases b with
    | nil => simp [tensorAdd, zerosLike]
    | cons rb b =>
      intro row hrow
      simp only [tensorAdd, zerosLike, List.map_cons, List.zipWith_cons_cons,
        List.mem_cons] at hrow
      rcases hrow with h | h
      · intro v hv
        rw [h] at hv
        exact zeros_row_entries ra rb v hv
      · exact ih b row (by simpa [tensorAdd, zerosLike] using h)

/-- The affine `CellAR.forward` in closed form: under a matching latent
channel count the guards of the three convolutions pass, the hidden path
composes, and the cell returns `(z - mu, zeros_like (z - mu))` with `mu` the
spec-side shift `muShift`. -/
theorem cellARForward_eq (ops : RealOps) (p : CellARParams) (z ftr : Tensor)
    (hz : z.length = p.numZ) :
    cellARForward ops false p z ftr =
      some (tensorSub z (muShift ops p z),
        zerosLike (tensorSub z (muShift ops p z))) := by
  have g1 : z.length = (arResCfg1 p.numZ (p.numZ * 6)).cIn := hz
  have g2 : (eluT ops (ARConv1dForward (arResCfg1 p.numZ (p.numZ * 6)) true p.w1 p.b1
      z)).length = (arResCfg2 (p.numZ * 6) 1 5).cIn := by
    rw [eluT_length, ARConv1dForward_length]
    rfl
  have g3 : (eluT ops (eluT ops (ARConv1dForward (arResCfg2 (p.numZ * 6) 1 5) true
      p.w2 p.b2 (eluT ops (ARConv1dForward (arResCfg1 p.numZ (p.numZ * 6)) true
        p.w1 p.b1 z))))).length = (muCfg p.numZ).cIn := by
    rw [eluT_length, eluT_length, ARConv1dForward_length]
    rfl
  simp only [cellARForward, arInvResForward, arInvResLayers, eluConvForward,
    ARLayer.apply, ARConv1dF, List.foldlM, muShift, Bool.false_eq_true, if_false,
    g1, g2, g3, if_pos, Option.bind_eq_bind, Option.bind_some, Option.some_bind,
    Option.pure_def]

/-- C7: `PairedCellAR` with the affine variant returns
`new_z = z - mu1 - mu2`, with `mu1` the first cell's shift computed from `z`
and `mu2` the second cell's shift computed from `z - mu1`, and the returned
log-determinant (`zeros + zeros` after `log_det1 += log_det2`) is identically
zero. -/
theorem C7_paired_affine_shift (ops : RealOps) (p1 p2 : CellARParams) (z ftr : Tensor)
    (hz : z.length = p1.numZ) (hp : p2.numZ = p1.numZ) :
    pairedCellARForward ops false p1 p2 z ftr =
      some (tensorSub (tensorSub z (muShift ops p1 z))
              (muShift ops p2 (tensorSub z (muShift ops p1 z))),
            tensorAdd (zerosLike (tensorSub z (muShift ops p1 z)))
              (zerosLike (tensorSub (tensorSub z (muShift ops p1 z))
                (muShift ops p2 (tensorSub z (muShift ops p1 z)))))) ∧
    (∀ row ∈ tensorAdd (zerosLike (tensorSub z (muShift ops p1 z)))
        (zerosLike (tensorSub (tensorSub z (muShift ops p1 z))
          (muShift ops p2 (tensorSub z (muShift ops p1 z))))),
      ∀ v ∈ row, v = 0) := by
  have hmu1 : (muShift ops p1 z).length = p1.numZ := by
    unfold muShift
    rw [ARConv1dForward_length]
    rfl
  have hz1 : (tensorSub z (muShift ops p1 z)).length = p2.numZ := by
    rw [tensorSub_length, hmu1, hz, hp]
    simp
  have h1 := cellARForward_eq ops p1 z ftr hz
  have h2 := cellARForward_eq ops p2 (tensorSub z (muShift ops p1 z)) ftr hz1
  refine ⟨?_, tensorAdd_zerosLike_entries _ _⟩
  simp only [pairedCellARForward, h1, h2, Option.bind_eq_bind, Option.some_bind]
  rfl

/-- Witness for C7: the theorem applied to a single-channel latent and the
concrete parameters `c7p`. -/
theorem C7_paired_affine_shift_witness :
    pairedCellARForward ops0 false c7p c7p [[1]] [] =
      some (tensorSub (tensorSub [[1]] (muShift ops0 c7p [[1]]))
              (muShift ops0 c7p (tensorSub [[1]] (muShift ops0 c7p [[1]]))),
            tensorAdd (zerosLike (tensorSub [[1]] (muShift ops0 c7p [[1]])))
              (zerosLike (tensorSub (tensorSub [[1]] (muShift ops0 c7p [[1]]))
                (muShift ops0 c7p (tensorSub [[1]] (muShift ops0 c7p [[1]])))))) :=
  (C7_paired_affine_shift ops0 c7p c7p [[1]] [] rfl rfl).1

/-- The normalizing-flow loop on flows that always succeed: the final latent
is the composed trajectory and each flow's log-determinant is subtracted in
turn from the running posterior log-density. -/
theorem applyNFCells_total (fs : List (Tensor → Tensor → Tensor × Tensor))
    (z ftr lq : Tensor) :
    applyNFCells (fs.map (fun f z2 ftr2 => some (f z2 ftr2))) z ftr lq =
      some (nfFinalZ fs z ftr, (nfLogDets fs z ftr).foldl tensorSub lq) := by
  induction fs generalizing z lq with
  | nil => rfl
  | cons f fs ih =>
    simp only [List.map_cons, applyNFCells, List.foldlM, nfFinalZ, nfLogDets,
      List.foldl, Option.bind_eq_bind, Option.some_bind]
    exact ih (f z ftr).1 (tensorSub lq (f z ftr).2)

/-- C8: the per-group KL term is the closed-form `q.kl(p)` exactly when the
number of normalizing flows is zero (`with_nf = num_nf > 0`); with flows
active it is the difference `log_q - log_p` of accumulated log-densities, and
the flow loop subtracts each flow's log-determinant from the running
posterior log-density along the trajectory. -/
theorem C8_kl_branch_and_flow_accounting {Q : Type} (num_nf : ℕ) (kl : Q → Q → Tensor)
    (qs ps : List Q) (lqs lps : List Tensor)
    (fs : List (Tensor → Tensor → Tensor × Tensor)) (z ftr lq : Tensor) :
    (withNf num_nf = false ↔ num_nf = 0) ∧
    (num_nf = 0 →
      klPerVarList kl (withNf num_nf) qs ps lqs lps =
        ((qs.zip ps).zip (lqs.zip lps)).map (fun e => kl e.1.1 e.1.2)) ∧
    (0 < num_nf →
      klPerVarList kl (withNf num_nf) qs ps lqs lps =
        ((qs.zip ps).zip (lqs.zip lps)).map (fun e => tensorSub e.2.1 e.2.2)) ∧
    applyNFCells (fs.map (fun f z2 ftr2 => some (f z2 ftr2))) z ftr lq =
      some (nfFinalZ fs z ftr, (nfLogDets fs z ftr).foldl tensorSub lq) := by
  refine ⟨?_, ?_, ?_, applyNFCells_total fs z ftr lq⟩
  · unfold withNf
    simp
  · intro h
    subst h
    have hw : withNf 0 = false := rfl
    rw [hw]
    unfold klPerVarList
    simp
  · intro h
    have hw : withNf num_nf = true := by
      unfold withNf
      exact decide_eq_true h
    rw [hw]
    unfold klPerVarList
    simp

/-- Witness for C8: both directions evaluated at concrete data — no flows on
the left (closed-form branch), one flow on the right. -/
theorem C8_kl_branch_witness :
    klPerVarList (fun x y : Tensor => tensorAdd x y) (withNf 0) [[[1]]] [[[2]]]
        [[[3]]] [[[4]]] =
      ((([[[1]]] : List Tensor).zip [[[2]]]).zip
        (([[[3]]] : List Tensor).zip [[[4]]])).map
        (fun e => tensorAdd e.1.1 e.1.2) :=
  (C8_kl_branch_and_flow_accounting 0 (fun x y : Tensor => tensorAdd x y)
    [[[1]]] [[[2]]] [[[3]]] [[[4]]] [] [] [] []).2.1 rfl

theorem combCountD_cons_comb {α β : Type} (g : α → β → α) (cells : List (DCell α β)) :
    combCountD (DCell.comb g :: cells) = combCountD cells + 1 := by
  simp [combCountD, List.countP_cons]

theorem combCountD_cons_plain {α β : Type} (f : α → α) (cells : List (DCell α β)) :
    combCountD (DCell.plain f :: cells) = combCountD cells := by
  simp [combCountD, List.countP_cons]

theorem encTowerLoop_eq {α : Type} (cells : List (ECell α)) (s : α)
    (ce : List (α → α → α)) (cs : List α) :
    encTowerLoop cells s ce cs =
      (ce ++ (encSpec cells s).1, cs ++ (encSpec cells s).2.1,
        (encSpec cells s).2.2) := by
  induction cells generalizing s ce cs with
  | nil => simp [encTowerLoop, encSpec]
  | cons c cells ih =>
    cases c with
    | comb g =>
      simp only [encTowerLoop, encSpec]
      rw [ih]
      simp [List.append_assoc]
    | plain f =>
      simp only [encTowerLoop, encSpec]
      exact ih (f s) ce cs

theorem encSpec_stream {α : Type} (cells : List (ECell α)) (s : α) :
    (encSpec cells s).2.2 = cells.foldl (fun t c =>
      match c with
      | ECell.comb _ => t
      | ECell.plain f => f t) s := by
  induction cells generalizing s with
  | nil => rfl
  | cons c cells ih =>
    cases c with
    | comb g => simp only [encSpec, List.foldl]; exact ih s
    | plain f => simp only [encSpec, List.foldl]; exact ih (f s)

theorem encSpec_lengths {α : Type} (cells : List (ECell α)) (s : α) :
    (encSpec cells s).1.length = combCountE cells ∧
    (encSpec cells s).2.1.length = combCountE cells := by
  induction cells generalizing s with
  | nil => simp [encSpec, combCountE]
  | cons c cells ih =>
    cases c with
    | comb g =>
      simp only [encSpec, combCountE, List.countP_cons, List.length_cons]
      constructor
      · rw [(ih s).1]
        simp [combCountE]
      · rw [(ih s).2]
        simp [combCountE]
    | plain f =>
      simp only [encSpec, combCountE, List.countP_cons]
      constructor
      · rw [(ih (f s)).1]
        simp [combCountE]
      · rw [(ih (f s)).2]
        simp [combCountE]

theorem decTowerLoop_trace_from {α β : Type} (ce : List (α → α → α)) (cs : List α)
    (newZ : ℕ → α → α → β) (cells : List (DCell α β)) :
    ∀ (s : α) (z : β) (idx : ℕ) (tr : List (ℕ × ℕ)), 1 ≤ idx →
      (decTowerLoop ce cs newZ cells s z idx tr).2.2.2 =
        tr ++ (List.range (combCountD cells)).map (fun j => (idx + j, idx + j - 1)) := by
  induction cells with
  | nil =>
    intro s z idx tr h
    simp [decTowerLoop, combCountD]
  | cons c cells ih =>
    intro s z idx tr h
    cases c with
    | comb g =>
      have hne : ¬ idx = 0 := by omega
      simp only [decTowerLoop, hne, if_false]
      rw [ih _ _ (idx + 1) _ (by omega)]
      rw [combCountD_cons_comb, List.range_succ_eq_map]
      simp only [List.map_cons, List.map_map, List.append_assoc, List.cons_append,
        List.nil_append, Nat.add_zero]
      congr 1
      congr 1
      apply List.map_congr_left
      intro j _
      simp only [Function.comp_apply, Prod.mk.injEq]
      omega
    | plain f =>
      simp only [decTowerLoop]
      rw [combCountD_cons_plain]
      exact ih (f s) z idx tr h

theorem decTowerLoop_trace {α β : Type} (ce : List (α → α → α)) (cs : List α)
    (newZ : ℕ → α → α → β) (cells : List (DCell α β)) (s : α) (z : β) :
    (decTowerLoop ce cs newZ cells s z 0 []).2.2.2 =
      (List.range (combCountD cells - 1)).map (fun k => (k + 1, k)) := by
  induction cells generalizing s z with
  | nil => simp [decTowerLoop, combCountD]
  | cons c cells ih =>
    cases c with
    | comb g =>
      simp only [decTowerLoop, eq_self_iff_true, if_true, Nat.zero_add]
      rw [decTowerLoop_trace_from ce cs newZ cells _ _ 1 [] (by omega)]
      rw [combCountD_cons_comb]
      simp only [List.nil_append, Nat.add_sub_cancel]
      apply List.map_congr_left
      intro j _
      simp only [Prod.mk.injEq]
      omega
    | plain f =>
      simp only [decTowerLoop]
      rw [combCountD_cons_plain]
      exact ih (f s) z

theorem combCountE_build {α : Type} (tags : List EncTag) (mkC : ℕ → α → α → α)
    (mkP : ℕ → α → α) :
    combCountE (buildEncCells tags mkC mkP) =
      tags.countP (fun t => decide (t = EncTag.combiner_enc)) := by
  unfold combCountE buildEncCells
  rw [List.countP_map]
  have h1 : tags.countP (fun t => decide (t = EncTag.combiner_enc)) =
      List.countP ((fun t => decide (t = EncTag.combiner_enc)) ∘ Prod.snd) tags.enum := by
    rw [← List.countP_map, List.enum_map_snd]
  rw [h1]
  apply List.countP_congr
  intro it _
  rcases it with ⟨i, t⟩
  cases t <;> rfl

theorem combCountD_build {α β : Type} (tags : List DecTag) (mkC : ℕ → α → β → α)
    (mkP : ℕ → α → α) :
    combCountD (buildDecCells tags mkC mkP) =
      tags.countP (fun t => decide (t = DecTag.combiner_dec)) := by
  unfold combCountD buildDecCells
  rw [List.countP_map]
  have h1 : tags.countP (fun t => decide (t = DecTag.combiner_dec)) =
      List.countP ((fun t => decide (t = DecTag.combiner_dec)) ∘ Prod.snd) tags.enum := by
    rw [← List.countP_map, List.enum_map_snd]
  rw [h1]
  apply List.countP_congr
  intro it _
  rcases it with ⟨i, t⟩
  cases t <;> rfl

theorem list_sum_range_eq (f : ℕ → ℕ) (n : ℕ) :
    ((List.range n).map f).sum = ∑ i ∈ Finset.range n, f i := by
  induction n with
  | zero => simp
  | succ n ih => simp [List.range_succ, Finset.sum_range_succ, ih]

theorem sum_range_skip_last (n : ℕ) :
    (∑ g ∈ Finset.range n, if g = n - 1 then (0 : ℕ) else 1) = n - 1 := by
  cases n with
  | zero => simp
  | succ m =>
    rw [Finset.sum_range_succ]
    have h1 : ∀ g ∈ Finset.range m, (if g = m + 1 - 1 then (0 : ℕ) else 1) = 1 := by
      intro g hg
      simp only [Finset.mem_range] at hg
      rw [if_neg (by omega)]
    rw [Finset.sum_congr rfl h1]
    simp

/-- Combiner count contributed by one encoder scale `s`. -/
theorem encScaleCount (S : ℕ) (groups : List ℕ) (cpc : ℕ) (s : ℕ) :
    List.countP (fun t => decide (t = EncTag.combiner_enc))
      (((List.range (groups.getD s 0)).flatMap fun g =>
        List.replicate cpc EncTag.normal_enc ++
          (if s = S - 1 ∧ g = groups.getD s 0 - 1 then [] else [EncTag.combiner_enc])) ++
        (if s < S - 1 then [EncTag.down_enc] else [])) =
      if s = S - 1 then groups.getD s 0 - 1 else groups.getD s 0 := by
  rw [List.countP_append]
  have hdown : List.countP (fun t => decide (t = EncTag.combiner_enc))
      (if s < S - 1 then [EncTag.down_enc] else []) = 0 := by
    split <;> rfl
  rw [hdown, Nat.add_zero, List.countP_flatMap, list_sum_range_eq]
  have hg : ∀ g ∈ Finset.range (groups.getD s 0),
      (List.countP (fun t => decide (t = EncTag.combiner_enc)) ∘ fun g =>
        List.replicate cpc EncTag.normal_enc ++
          (if s = S - 1 ∧ g = groups.getD s 0 - 1 then [] else [EncTag.combiner_enc])) g =
      if s = S - 1 ∧ g = groups.getD s 0 - 1 then 0 else 1 := by
    intro g _
    simp only [Function.comp_apply, List.countP_append, List.countP_replicate,
      show (decide (EncTag.normal_enc = EncTag.combiner_enc)) = false from rfl,
      Bool.false_eq_true, if_false, Nat.zero_add]
    split <;> rfl
  rw [Finset.sum_congr rfl hg]
  by_cases hsS : s = S - 1
  · simp only [hsS, true_and, if_pos rfl]
    exact sum_range_skip_last _
  · simp only [hsS, false_and, if_false]
    simp

/-- Combiner count contributed by one decoder scale `s`. -/
theorem decScaleCount (S : ℕ) (groups : List ℕ) (cpc : ℕ) (s : ℕ) :
    List.countP (fun t => decide (t = DecTag.combiner_dec))
      (((List.range (groups.getD (S - s - 1) 0)).flatMap fun g =>
        (if s = 0 ∧ g = 0 then [] else List.replicate cpc DecTag.normal_dec) ++
          [DecTag.combiner_dec]) ++
        (if s < S - 1 then [DecTag.up_dec] else [])) =
      groups.getD (S - s - 1) 0 := by
  rw [List.countP_append]
  have hup : List.countP (fun t => decide (t = DecTag.combiner_dec))
      (if s < S - 1 then [DecTag.up_dec] else []) = 0 := by
    split <;> rfl
  rw [hup, Nat.add_zero, List.countP_flatMap, list_sum_range_eq]
  have hg : ∀ g ∈ Finset.range (groups.getD (S - s - 1) 0),
      (List.countP (fun t => decide (t = DecTag.combiner_dec)) ∘ fun g =>
        (if s = 0 ∧ g = 0 then [] else List.replicate cpc DecTag.normal_dec) ++
          [DecTag.combiner_dec]) g = 1 := by
    intro g _
    simp only [Function.comp_apply, List.countP_append]
    have hpre : List.countP (fun t => decide (t = DecTag.combiner_dec))
        (if s = 0 ∧ g = 0 then [] else List.replicate cpc DecTag.normal_dec) = 0 := by
      split
      · rfl
      · rw [List.countP_replicate]
        rfl
    rw [hpre]
    rfl
  rw [Finset.sum_congr rfl hg]
  simp

/-- Number of `combiner_enc` cells appended by `init_encoder_tower`: one per
(scale, group) pair except the last, i.e. the total group count minus one. -/
theorem countCombEnc_tags (S : ℕ) (groups : List ℕ) (cpc : ℕ) (hS : 1 ≤ S)
    (hlast : 1 ≤ groups.getD (S - 1) 0) :
    (initEncoderTowerTags S groups cpc).countP
        (fun t => decide (t = EncTag.combiner_enc)) + 1 =
      ∑ s ∈ Finset.range S, groups.getD s 0 := by
  unfold initEncoderTowerTags
  rw [List.countP_flatMap, list_sum_range_eq]
  simp only [Function.comp_apply]
  rw [Finset.sum_congr rfl (fun s _ => encScaleCount S groups cpc s)]
  cases S with
  | zero => omega
  | succ T =>
    rw [Finset.sum_range_succ, Finset.sum_range_succ]
    simp only [Nat.succ_sub_one] at *
    have h1 : ∀ s ∈ Finset.range T,
        (if s = T then groups.getD s 0 - 1 else groups.getD s 0) = groups.getD s 0 := by
      intro s hs
      simp only [Finset.mem_range] at hs
      rw [if_neg (by omega)]
    rw [Finset.sum_congr rfl h1]
    simp only [if_true]
    omega

/-- Number of `combiner_dec` cells appended by `init_decoder_tower`: one per
(scale, group) pair, i.e. the total group count. -/
theorem countCombDec_tags (S : ℕ) (groups : List ℕ) (cpc : ℕ) :
    (initDecoderTowerTags S groups cpc).countP
        (fun t => decide (t = DecTag.combiner_dec)) =
      ∑ s ∈ Finset.range S, groups.getD s 0 := by
  unfold initDecoderTowerTags
  rw [List.countP_flatMap, list_sum_range_eq]
  simp only [Function.comp_apply]
  rw [Finset.sum_congr rfl (fun s _ => decScaleCount S groups cpc s)]
  have h1 : ∀ s ∈ Finset.range S, groups.getD (S - s - 1) 0 = groups.getD (S - 1 - s) 0 := by
    intro s _
    congr 1
    omega
  rw [Finset.sum_congr rfl h1]
  exact Finset.sum_range_reflect (fun i => groups.getD i 0) S

/-- C6: during `AutoEncoder.forward`, every `combiner_enc` cell of the
encoder tower is deferred, not evaluated — the cell and the current feature
stream are appended to the two cache lists while the stream passed onward is
the un-combined one (first and second conjuncts; `encSpec` caches the pair
and leaves the stream untouched, and the final stream is the fold of the
non-combiner cells only); after the tower both lists are reversed (first
conjunct); each combiner contributes exactly one cached pair (third and
fourth conjuncts); the decoder tower built from the same group hierarchy has
exactly one more combiner than the encoder tower (fifth conjunct); and the
decoder pass consumes cached pair `k` exactly at its combiner of ordinal
`k + 1`, each pair exactly once, covering `0, ..., N-1` in decoder order —
i.e. in reverse order of collection, since the caches were reversed (sixth
conjunct: the consumption trace of `(combiner ordinal, cache index)` pairs
is exactly `[(1, 0), (2, 1), ...]` over the whole cache). -/
theorem C6_combiner_cache_discipline {α β : Type} (S : ℕ) (groups : List ℕ)
    (cpcE cpcD : ℕ) (hS : 1 ≤ S) (hlast : 1 ≤ groups.getD (S - 1) 0)
    (mkEC : ℕ → α → α → α) (mkEP : ℕ → α → α)
    (mkDC : ℕ → α → β → α) (mkDP : ℕ → α → α)
    (newZ : ℕ → α → α → β) (s0 sInit : α) (z0 : β)
    (EC : List (ECell α)) (DC : List (DCell α β))
    (hEC : EC = buildEncCells (initEncoderTowerTags S groups cpcE) mkEC mkEP)
    (hDC : DC = buildDecCells (initDecoderTowerTags S groups cpcD) mkDC mkDP) :
    runEncTower EC s0 =
      ((encSpec EC s0).1.reverse, (encSpec EC s0).2.1.reverse, (encSpec EC s0).2.2) ∧
    (encSpec EC s0).2.2 = EC.foldl (fun t c =>
      match c with
      | ECell.comb _ => t
      | ECell.plain f => f t) s0 ∧
    (encSpec EC s0).1.length = combCountE EC ∧
    (encSpec EC s0).2.1.length = combCountE EC ∧
    combCountD DC = combCountE EC + 1 ∧
    (decTowerLoop (runEncTower EC s0).1 (runEncTower EC s0).2.1 newZ DC
        sInit z0 0 []).2.2.2 =
      (List.range (combCountE EC)).map (fun k => (k + 1, k)) := by
  have hcount : combCountD DC = combCountE EC + 1 := by
    rw [hEC, hDC, combCountE_build, combCountD_build]
    rw [countCombDec_tags S groups cpcD]
    have h1 := countCombEnc_tags S groups cpcE hS hlast
    omega
  refine ⟨?_, encSpec_stream EC s0, (encSpec_lengths EC s0).1,
    (encSpec_lengths EC s0).2, hcount, ?_⟩
  · unfold runEncTower
    rw [encTowerLoop_eq]
    simp
  · rw [decTowerLoop_trace]
    rw [hcount]
    simp

/-- Witness for C6: a two-scale hierarchy with groups `[2, 1]` and concrete
payloads over natural-number streams; the consumption trace is evaluated by
the theorem. -/
theorem C6_combiner_cache_discipline_witness :
    (decTowerLoop
        (runEncTower (buildEncCells (initEncoderTowerTags 2 [2, 1] 1)
          (fun i a b => a + b + i) (fun i a => a + i)) 0).1
        (runEncTower (buildEncCells (initEncoderTowerTags 2 [2, 1] 1)
          (fun i a b => a + b + i) (fun i a => a + i)) 0).2.1
        (fun i f s => f + s + i)
        (buildDecCells (initDecoderTowerTags 2 [2, 1] 1)
          (fun i a z => a + z + i) (fun i a => a + i))
        5 7 0 []).2.2.2 =
      (List.range (combCountE (buildEncCells (initEncoderTowerTags 2 [2, 1] 1)
        (fun i a b => a + b + i) (fun i a => a + i)))).map (fun k => (k + 1, k)) :=
  (C6_combiner_cache_discipline 2 [2, 1] 1 1 (by decide) (by decide)
    (fun i a b => a + b + i) (fun i a => a + i)
    (fun i a z => a + z + i) (fun i a => a + i)
    (fun i f s => f + s + i) 0 5 7 _ _ rfl rfl).2.2.2.2.2

/-- C9: `mix_log_cdf_flow` clamps `log_s` to a minimum of `-7` before any
use (the flow is invariant under pre-clamping its `log_s` argument, second
conjunct), computes the mixture CDF and its complement via log-sum-exp
(`logMixCDF`, `logOneMinusMixCDF`), and returns
`new_z = exp(log_a) * (log CDF - log(1 - CDF)) + b` together with the
analytic log-determinant
`log_a - log CDF - log(1 - CDF) + log(mixture density)`. -/
theorem C9_mix_log_cdf_flow_formulas (ops : RealOps) (z1 : Scalar)
    (logit_pi mu log_s : List Scalar) (log_a b : Scalar) :
    mix_log_cdf_flow ops z1 logit_pi mu log_s log_a b =
      (ops.exp log_a *
          (logMixCDF ops z1 logit_pi mu (clampLogS log_s) -
            logOneMinusMixCDF ops z1 logit_pi mu (clampLogS log_s)) + b,
        log_a - logMixCDF ops z1 logit_pi mu (clampLogS log_s) -
          logOneMinusMixCDF ops z1 logit_pi mu (clampLogS log_s) +
          logMixPDF ops z1 logit_pi mu (clampLogS log_s)) ∧
    mix_log_cdf_flow ops z1 logit_pi mu log_s log_a b =
      mix_log_cdf_flow ops z1 logit_pi mu (clampLogS log_s) log_a b := by
  constructor
  · rfl
  · unfold mix_log_cdf_flow clampLogS
    simp [List.map_map, Function.comp_def, max_assoc]

/-- C10: the loss step fails with the assertion at `src/model.py` line 509
exactly when weight-decay-norm annealing is requested with a non-positive
initial or final endpoint; with both endpoints positive the coefficient is
`exp((1 - kl_coeff) * log(init) + kl_coeff * log(final))`; without annealing
it is the configured final value unchanged. -/
theorem C10_wdn_anneal_step (ops : RealOps) (anneal : Bool)
    (wdn_init wdn_final kl_coeff : Scalar) :
    ((wdnCoeffStep ops anneal wdn_init wdn_final kl_coeff =
        .error .wdnEndpointsNotPositive) ↔
      (anneal = true ∧ (wdn_init ≤ 0 ∨ wdn_final ≤ 0))) ∧
    (anneal = true → 0 < wdn_init → 0 < wdn_final →
      wdnCoeffStep ops anneal wdn_init wdn_final kl_coeff =
        .ok (ops.exp ((1 - kl_coeff) * ops.log wdn_init +
          kl_coeff * ops.log wdn_final))) ∧
    (anneal = false →
      wdnCoeffStep ops anneal wdn_init wdn_final kl_coeff = .ok wdn_final) := by
  cases anneal with
  | false => simp [wdnCoeffStep]
  | true =>
    by_cases h : 0 < wdn_init ∧ 0 < wdn_final
    · refine ⟨?_, fun _ _ _ => ?_, fun hf => Bool.noConfusion hf⟩
      · simp [wdnCoeffStep, h]
      · simp [wdnCoeffStep, h]
    · refine ⟨?_, fun _ hi hf => absurd ⟨hi, hf⟩ h, fun hf => Bool.noConfusion hf⟩
      simp only [wdnCoeffStep, if_pos rfl, if_neg h, true_and]
      simp only [if_true]
      constructor
      · intro _
        rcases not_and_or.mp h with h1 | h1
        · exact Or.inl (not_lt.mp h1)
        · exact Or.inr (not_lt.mp h1)
      · intro _
        trivial

/-- Witness for C10: with annealing requested and positive endpoints `2` and
`3`, the step returns the interpolated coefficient. -/
theorem C10_wdn_anneal_step_witness :
    wdnCoeffStep ops0 true 2 3 5 =
      .ok (ops0.exp ((1 - 5) * ops0.log 2 + 5 * ops0.log 3)) :=
  (C10_wdn_anneal_step ops0 true 2 3 5).2.1 rfl (by decide) (by decide)

end NVAE
